import Mathlib

/-!
Verification development for the job-scheduling and adaptive-submission core
of the AI-Videos-Play repository.

The shallow embedding below translates three source modules:

* `src/services/taskQueue.ts` — the `TaskQueueManager` class (bounded-concurrency
  scheduler).  Its mutable fields become the record `TaskQueue.QState`; each
  method becomes a state-passing function of the same name.  JavaScript `Map`s
  are association lists over `String` keys, the `running` `Set` is a
  duplicate-free list, and the asynchronous executor machinery is made explicit:
  `processQueue` launching `executor(taskId)` appends the executor captured at
  launch time to an `inFlight` list, and a separate `settle` event later applies
  its outcome (the `.then`/`.catch`/`.finally` chain).
* `src/services/dbService.ts` — the size-based routing of
  `generateSubtitlesWithDeepgram` (direct transfer / compress / object storage).
* `src/services/authService.ts` — the in-memory sync queue
  (`queueVideoForSync` / `processSyncQueue`).
-/

namespace TaskQueue

/-- `TaskType` from taskQueue.ts: `'subtitle' | 'analysis' | 'translation'`. -/
inductive TaskType
  | subtitle
  | analysis
  | translation
deriving DecidableEq, Repr

/-- The string used for a `TaskType` inside a template literal. -/
def TaskType.str : TaskType → String
  | .subtitle => "subtitle"
  | .analysis => "analysis"
  | .translation => "translation"

/-- `TaskStatus`: `'pending' | 'running' | 'completed' | 'failed' | 'cancelled'`. -/
inductive TaskStatus
  | pending
  | running
  | completed
  | failed
  | cancelled
deriving DecidableEq, Repr

/-- The `Task` interface.  `progress` is `Int` because the source applies no
range check to values written through `updateTask`; `result` values are
abstracted to `Nat` payloads. -/
structure Task where
  id : String
  videoId : String
  videoName : String
  type : TaskType
  status : TaskStatus
  progress : Int
  stage : String
  startTime : Option Nat := none
  endTime : Option Nat := none
  error : Option String := none
  result : Option Nat := none
deriving DecidableEq, Repr

/-- Outcome of a task executor's promise: fulfilled with a result or rejected
with an error message. -/
inductive Outcome
  | ok (result : Nat)
  | err (msg : String)
deriving DecidableEq, Repr

/-- A `TaskExecutor`, abstracted to its identity (`tag`, so distinct work units
can be told apart) and the outcome its promise eventually produces. -/
structure Exec where
  tag : Nat
  outcome : Outcome
deriving DecidableEq, Repr

/-- Association-list lookup, the embedding of `Map.prototype.get`. -/
def alookup {α : Type} : List (String × α) → String → Option α
  | [], _ => none
  | (k, v) :: rest, key => if k = key then some v else alookup rest key

/-- Association-list write, the embedding of `Map.prototype.set`: replaces in
place when the key is present, otherwise appends. -/
def aset {α : Type} : List (String × α) → String → α → List (String × α)
  | [], key, v => [(key, v)]
  | (k, w) :: rest, key, v =>
    if k = key then (key, v) :: rest else (k, w) :: aset rest key v

/-- Association-list removal, the embedding of `Map.prototype.delete`. -/
def aerase {α : Type} : List (String × α) → String → List (String × α)
  | [], _ => []
  | (k, w) :: rest, key => if k = key then rest else (k, w) :: aerase rest key

/-- `Set.prototype.add`: append only when absent. -/
def insertSet (l : List String) (x : String) : List String :=
  if x ∈ l then l else l ++ [x]

/-- The mutable fields of the `TaskQueueManager` singleton, plus the explicit
bookkeeping for in-flight executor promises:

* `inFlight` — one entry per `executor(taskId)` invocation whose promise has
  not settled yet, carrying the executor captured at launch time;
* `invocations` — the log of every executor launch, as (taskId, tag) pairs.

Listeners are omitted: `notifyListeners` only republishes state. -/
structure QState where
  tasks : List (String × Task)
  running : List String
  maxConcurrent : Nat
  executors : List (String × Exec)
  pendingQueue : List String
  inFlight : List (String × Exec)
  invocations : List (String × Nat)
deriving DecidableEq, Repr

/-- Initial state of the singleton: empty collections, `maxConcurrent = 3`. -/
def initialState : QState :=
  { tasks := [], running := [], maxConcurrent := 3, executors := [],
    pendingQueue := [], inFlight := [], invocations := [] }

/-- `startTask`: mark a task running, record `startTime`, add to `running`. -/
def startTask (s : QState) (taskId : String) (now : Nat) : QState :=
  match alookup s.tasks taskId with
  | none => s
  | some task =>
    { s with
      tasks := aset s.tasks taskId
        { task with status := .running, startTime := some now },
                    running := insertSet s.running taskId }

/-- The background launch `executor(taskId)` performed by `processQueue`:
the executor joins the in-flight set and the invocation log. -/
def launch (s : QState) (taskId : String) (ex : Exec) : QState :=
  { s with
    inFlight := s.inFlight ++ [(taskId, ex)],
    invocations := s.invocations ++ [(taskId, ex.tag)] }

/-- The `while` loop body of `processQueue`, recursing on the queue contents:
while `running.size < maxConcurrent` and the queue is non-empty, shift the
head id; if its task and executor both exist, start it and launch the
executor, otherwise `continue`.  When the bound is reached the unconsumed
tail stays in the queue. -/
def pqGo (now : Nat) : List String → QState → QState
  | [], s => s
  | taskId :: rest, s =>
    if s.running.length < s.maxConcurrent then
      match alookup s.tasks taskId, alookup s.executors taskId with
      | some _, some ex => pqGo now rest (launch (startTask s taskId now) taskId ex)
      | _, _ => pqGo now rest s
    else { s with pendingQueue := taskId :: rest }

/-- `processQueue`: drain `pendingQueue` through the loop above. -/
def processQueue (now : Nat) (s : QState) : QState :=
  pqGo now s.pendingQueue { s with pendingQueue := [] }

/-- `completeTask`: status `completed`, `progress := 100`, store the result,
free the running slot, then `processQueue`. -/
def completeTask (s : QState) (taskId : String) (result : Nat) (now : Nat) : QState :=
  match alookup s.tasks taskId with
  | none => s
  | some task =>
    processQueue now
      { s with
        tasks := aset s.tasks taskId
          { task with status := .completed, progress := 100,
                      endTime := some now, result := some result },
        running := s.running.erase taskId }

/-- `failTask`: status `failed`, store the error, free the running slot,
then `processQueue`. -/
def failTask (s : QState) (taskId : String) (error : String) (now : Nat) : QState :=
  match alookup s.tasks taskId with
  | none => s
  | some task =>
    processQueue now
      { s with
        tasks := aset s.tasks taskId
          { task with status := .failed, endTime := some now, error := some error },
                      running := s.running.erase taskId }

/-- `cancelTask`: status `cancelled`, free the running slot, then
`processQueue`.  Note: the source neither checks the current status nor
removes the id from `pendingQueue`. -/
def cancelTask (s : QState) (taskId : String) (now : Nat) : QState :=
  match alookup s.tasks taskId with
  | none => s
  | some task =>
    processQueue now
      { s with
        tasks := aset s.tasks taskId
          { task with status := .cancelled, endTime := some now },
                      running := s.running.erase taskId }

/-- The fields a caller passes to `updateTask` (`Partial<Task>` restricted to
the fields progress reporting uses). -/
structure TaskPatch where
  progress : Option Int := none
  stage : Option String := none
deriving DecidableEq, Repr

/-- `Object.assign(task, updates)` for a `TaskPatch`. -/
def applyPatch (t : Task) (p : TaskPatch) : Task :=
  { t with
    progress := p.progress.getD t.progress,
    stage := p.stage.getD t.stage }

/-- `updateTask`: overwrite the stored fields with the given ones, verbatim. -/
def updateTask (s : QState) (taskId : String) (p : TaskPatch) : QState :=
  match alookup s.tasks taskId with
  | none => s
  | some task => { s with tasks := aset s.tasks taskId (applyPatch task p) }

/-- The task id template literal in `addTask`. -/
def taskIdOf (videoId : String) (ttype : TaskType) (now : Nat) : String :=
  videoId ++ "-" ++ ttype.str ++ "-" ++ toString now

/-- `addTask`: create the pending task, register the executor, append to the
pending queue, then `processQueue`.  (The returned completion promise only
polls the task record; callers observe whatever `tasks.get(taskId)` holds.) -/
def addTask (s : QState) (videoId videoName : String) (ttype : TaskType)
    (ex : Exec) (now : Nat) : QState :=
  let taskId := taskIdOf videoId ttype now
  let task : Task :=
    { id := taskId, videoId := videoId, videoName := videoName, type := ttype,
      status := .pending, progress := 0, stage := "Waiting in queue..." }
  processQueue now
    { s with
      tasks := aset s.tasks taskId task,
      executors := aset s.executors taskId ex,
      pendingQueue := s.pendingQueue ++ [taskId] }

/-- The `.then`/`.catch` handler pair attached to an executor's promise:
fulfilled → `completeTask`, rejected → `failTask`. -/
def settleOutcome (s : QState) (taskId : String) (out : Outcome) (now : Nat) : QState :=
  match out with
  | .ok r => completeTask s taskId r now
  | .err m => failTask s taskId m now

/-- Settlement of the `i`-th in-flight executor promise: run the
`.then`/`.catch` handler (`completeTask`/`failTask`, each of which calls
`processQueue`), then the `.finally` handler (delete the executor and call
`processQueue` again). -/
def settleAt (s : QState) (i : Nat) (now : Nat) : QState :=
  match s.inFlight.get? i with
  | none => s
  | some (taskId, ex) =>
    let s2 : QState :=
      settleOutcome { s with inFlight := s.inFlight.eraseIdx i } taskId ex.outcome now
    processQueue now { s2 with executors := aerase s2.executors taskId }

/-- The external events the scheduler reacts to. -/
inductive Event
  | add (videoId videoName : String) (ttype : TaskType) (ex : Exec) (now : Nat)
  | settle (i : Nat) (now : Nat)
  | cancel (taskId : String) (now : Nat)
  | update (taskId : String) (p : TaskPatch)
deriving DecidableEq, Repr

/-- One event applied to a state. -/
def step (s : QState) (e : Event) : QState :=
  match e with
  | .add v n t ex now => addTask s v n t ex now
  | .settle i now => settleAt s i now
  | .cancel taskId now => cancelTask s taskId now
  | .update taskId p => updateTask s taskId p

/-- Run a sequence of events from a given state. -/
def runFrom (s : QState) (evs : List Event) : QState :=
  evs.foldl step s

/-- Run a sequence of events from the singleton's initial state. -/
def runQ (evs : List Event) : QState :=
  runFrom initialState evs

/-- The bounded-concurrency invariant together with the fact that the
hard-coded bound is 3. -/
def GInv (s : QState) : Prop :=
  s.running.length ≤ s.maxConcurrent ∧ s.maxConcurrent = 3

/-- An executor that fulfils with its own tag as result. -/
def exOk (t : Nat) : Exec :=
  { tag := t, outcome := .ok t }

/-- Four submissions A, B, C, D (distinct videos, same timestamp). -/
def fifoTrace : List Event :=
  [ .add "a" "A" .subtitle (exOk 1) 0,
    .add "b" "B" .subtitle (exOk 2) 0,
    .add "c" "C" .subtitle (exOk 3) 0,
    .add "d" "D" .subtitle (exOk 4) 0 ]

/-- Three submissions saturating the three slots, a fourth left Pending,
then a cancellation of the Pending one. -/
def cancelPendingTrace : List Event :=
  [ .add "a" "A" .subtitle (exOk 1) 0,
    .add "b" "B" .subtitle (exOk 2) 0,
    .add "c" "C" .subtitle (exOk 3) 0,
    .add "d" "D" .subtitle (exOk 4) 0,
    .cancel "d-subtitle-0" 1 ]

/-- Three submissions saturating the slots, then two submissions for the same
video and task type whose `Date.now()` values coincide, so both derive the
same task id. -/
def collidingTrace : List Event :=
  [ .add "a" "A" .subtitle (exOk 1) 0,
    .add "b" "B" .subtitle (exOk 2) 0,
    .add "c" "C" .subtitle (exOk 3) 0,
    .add "d" "D" .subtitle { tag := 41, outcome := .ok 101 } 7,
    .add "d" "D" .subtitle { tag := 42, outcome := .ok 202 } 7 ]

/-- Task-record freshness: neither outcome field is set and progress is
still 0. -/
def Fresh (t : Task) : Prop :=
  t.result = none ∧ t.error = none ∧ t.progress = 0

/-- Field-consistency of a task record: its status determines which of
`error`/`result` is set and the stored progress. -/
def Consistent (t : Task) : Prop :=
  (t.status = .completed → (∃ r, t.result = some r) ∧ t.error = none ∧ t.progress = 100) ∧
  (t.status = .failed → (∃ m, t.error = some m) ∧ t.result = none ∧ t.progress = 0) ∧
  (t.status = .cancelled → Fresh t) ∧
  (t.status = .pending → Fresh t) ∧
  (t.status = .running → Fresh t)

/-- The task ids with an in-flight executor promise. -/
def flightIds (s : QState) : List String :=
  s.inFlight.map Prod.fst

/-- What holds of an id sitting in the pending queue: its task record exists,
is Pending (or Cancelled, since `cancelTask` does not dequeue), is fresh, and
its executor is registered. -/
def QueuedOk (s : QState) (id : String) : Prop :=
  (∃ t, alookup s.tasks id = some t ∧
    (t.status = .pending ∨ t.status = .cancelled) ∧ Fresh t) ∧
  ∃ ex, alookup s.executors id = some ex

/-- What holds of an id with an in-flight executor: its task record exists,
is Running (or Cancelled), and is fresh. -/
def FlightOk (s : QState) (id : String) : Prop :=
  ∃ t, alookup s.tasks id = some t ∧
    (t.status = .running ∨ t.status = .cancelled) ∧ Fresh t

/-- The reachability invariant of the scheduler under distinct task ids:
each id occurs at most once across queue and in-flight set, queued and
in-flight ids are well-formed, every stored record is field-consistent, and
every queued or in-flight id is one of the ids added so far. -/
def Inv (added : List String) (s : QState) : Prop :=
  (∀ id, s.pendingQueue.count id + (flightIds s).count id ≤ 1) ∧
  (∀ id, id ∈ s.pendingQueue → QueuedOk s id) ∧
  (∀ id, id ∈ flightIds s → FlightOk s id) ∧
  (∀ id t, alookup s.tasks id = some t → Consistent t) ∧
  (∀ id, id ∈ s.pendingQueue ∨ id ∈ flightIds s → id ∈ added)

/-- The task ids generated by the `add` events of a trace. -/
def addIds : List Event → List String
  | [] => []
  | .add v _ t _ now :: rest => taskIdOf v t now :: addIds rest
  | _ :: rest => addIds rest

/-- Whether an event is a direct `updateTask` write. -/
def Event.isUpdate : Event → Bool
  | .update _ _ => true
  | _ => false

/-- The trace performs no direct `updateTask` writes. -/
def NoUpdates (evs : List Event) : Prop :=
  ∀ e ∈ evs, e.isUpdate = false

/-- Check of one position of a trace: if the event is a cancellation, the
targeted task is not already Completed or Failed at that point. -/
def cancelGuard (evs : List Event) (k : Nat) (hk : k < evs.length) : Bool :=
  match evs.get ⟨k, hk⟩ with
  | .cancel taskId _ =>
    match alookup (runQ (evs.take k)).tasks taskId with
    | some t =>
      match t.status with
      | .completed => false
      | .failed => false
      | _ => true
    | none => true
  | _ => true

/-- No cancellation in the trace targets a job already in a terminal state
(the source's `cancelTask` would overwrite that state). -/
def NoTerminalCancel (evs : List Event) : Prop :=
  ∀ k, ∀ hk : k < evs.length, cancelGuard evs k hk = true

instance (evs : List Event) : Decidable (NoUpdates evs) := by
  unfold NoUpdates
  infer_instance

instance (evs : List Event) : Decidable (NoTerminalCancel evs) := by
  unfold NoTerminalCancel
  infer_instance

end TaskQueue

namespace Deepgram

/-- The request-size ceiling `C` used by `generateSubtitlesWithDeepgram`
(dbService.ts): `VERCEL_SIZE_LIMIT_MB = 4`. -/
def sizeLimitMB : ℚ := 4

/-- `file.size / (1024 * 1024)` in exact arithmetic. -/
def sizeMB (bytes : ℕ) : ℚ :=
  (bytes : ℚ) / (1024 * 1024)

/-- The externally observable collaborator calls the routing logic of
`generateSubtitlesWithDeepgram` can make:
`compress` = `extractAndCompressAudio`, `directUpload` = POST of the payload
body through `/api/deepgram-proxy`, `storageUpload` =
`uploadFileToStorageWithProgress`, `urlSubmit` = POST with `url_mode=true`
carrying only the storage URL. -/
inductive RouterCall
  | compress
  | directUpload
  | storageUpload
  | urlSubmit
deriving DecidableEq, Repr

/-- The size-based routing of `generateSubtitlesWithDeepgram` (success path),
as the sequence of collaborator calls it makes given the original size and
the size the compression collaborator reduces it to:
over the ceiling → compress, then re-measure; still over → storage upload
plus URL-mode submission; within → direct upload of the compressed payload;
small files are uploaded directly without compression. -/
def deepgramRoute (fileSize compressedSize : ℕ) : List RouterCall :=
  if sizeMB fileSize > sizeLimitMB then
    if sizeMB compressedSize > sizeLimitMB then
      [.compress, .storageUpload, .urlSubmit]
    else
      [.compress, .directUpload]
  else
    [.directUpload]

/-- The target bitrate the router passes to the compression collaborator
(dbService.ts, `targetBitrate: 32000`): the constant 32 kbps, independent of
the input size. -/
def chosenTargetBitrate (_fileSizeMB : ℚ) : ℕ :=
  32000

/-- `calculateBitrate` from the repository's design document
`src/@docs/DEEPGRAM_CORS_SOLUTION.md`: the target bitrate as a step function
of the original video size in MB. -/
def calculateBitrate (videoSizeMB : ℚ) : ℕ :=
  if videoSizeMB > 500 then 12000
  else if videoSizeMB > 300 then 16000
  else if videoSizeMB > 200 then 20000
  else if videoSizeMB > 100 then 24000
  else 32000

end Deepgram

namespace SyncQueue

/-- `type SyncState = 'idle' | 'syncing' | 'error'` in authService.ts. -/
inductive SyncState
  | idle
  | syncing
  | error
deriving DecidableEq, Repr

/-- The module-level mutable sync state of authService.ts, plus the log of
`syncToCloud` push calls (`pushes`) and whether `scheduleRetry` has been
requested (`retryScheduled`). -/
structure SState where
  syncQueue : List String
  isSyncing : Bool
  syncStatus : SyncState
  lastError : Option String
  lastSyncTime : Option Nat
  retryScheduled : Bool
  pushes : List String
deriving DecidableEq, Repr

/-- The collaborators `processSyncQueue` consults: `navigator.onLine`,
`authService.isAvailable()`, `authService.getCurrentUser()`, and the
per-video `result.success` of `syncToCloud`. -/
structure SyncEnv where
  online : Bool
  available : Bool
  currentUser : Option String
  pushOk : String → Bool

/-- `updateStatus(status, errorMessage?)`. -/
def updateStatus (s : SState) (status : SyncState) (errorMessage : Option String) : SState :=
  let le :=
    match errorMessage with
    | some m => some m
    | none => if status = SyncState.error then s.lastError else none
  let le2 := if status = SyncState.idle ∧ errorMessage = none then none else le
  { s with syncStatus := status, lastError := le2 }

/-- The `while` loop of `processSyncQueue`: push the head (`syncToCloud`,
logged in `pushes`); on success shift it off the queue and continue, on the
first failure record the error and stop, leaving the failed entry and all
behind it queued. -/
def drainGo (env : SyncEnv) : List String → SState → SState
  | [], s => s
  | videoId :: rest, s =>
    let s1 : SState := { s with pushes := s.pushes ++ [videoId] }
    if env.pushOk videoId then
      drainGo env rest { s1 with syncQueue := rest }
    else
      updateStatus s1 .error (some "同步失败，稍后重试")

/-- `processSyncQueue()`: single-flight guard, connectivity/configuration/auth
checks, then the drain loop; on a full drain mark idle and record
`lastSyncTime`, otherwise schedule a retry; always clear `isSyncing`. -/
def processSyncQueue (env : SyncEnv) (now : Nat) (s : SState) : SState :=
  if s.isSyncing ∨ s.syncQueue = [] then s
  else if env.online = false then
    updateStatus s .error (some "网络已断开，等待恢复...")
  else if env.available = false then
    updateStatus s .error (some "云端同步未配置")
  else
    match env.currentUser with
    | none => updateStatus s .error (some "登录后即可开启自动同步")
    | some _ =>
      let s1 := updateStatus { s with isSyncing := true } .syncing none
      let s2 := drainGo env s1.syncQueue s1
      let s3 :=
        if s2.syncQueue = [] then
          { updateStatus s2 .idle none with lastSyncTime := some now }
        else
          { s2 with retryScheduled := true }
      { s3 with isSyncing := false }

/-- `queueVideoForSync(videoId)`: idempotent append (no-op when already
queued) followed by an immediate drain attempt. -/
def queueVideoForSync (env : SyncEnv) (now : Nat) (s : SState) (videoId : String) : SState :=
  if videoId ∈ s.syncQueue then s
  else processSyncQueue env now { s with syncQueue := s.syncQueue ++ [videoId] }

/-- The module's initial state. -/
def initialSync : SState :=
  { syncQueue := [], isSyncing := false, syncStatus := .idle, lastError := none,
    lastSyncTime := none, retryScheduled := false, pushes := [] }

end SyncQueue

namespace TaskQueue

/-! ### Basic lemmas about the embedded collections -/

theorem alookup_aset_self {α : Type} (l : List (String × α)) (k : String) (v : α) :
    alookup (aset l k v) k = some v := by
  induction l with
  | nil => simp [aset, alookup]
  | cons p rest ih =>
    obtain ⟨k', w⟩ := p
    by_cases h : k' = k
    · simp [aset, alookup, h]
    · simp [aset, alookup, h, ih]

theorem alookup_aset_ne {α : Type} (l : List (String × α)) {k k' : String} (v : α)
    (h : k' ≠ k) : alookup (aset l k v) k' = alookup l k' := by
  have h' : k ≠ k' := Ne.symm h
  induction l with
  | nil => simp [aset, alookup, h']
  | cons p rest ih =>
    obtain ⟨k'', w⟩ := p
    by_cases hk : k'' = k
    · subst hk
      simp [aset, alookup, h']
    · simp [aset, alookup, hk, ih]

theorem alookup_aerase_ne {α : Type} (l : List (String × α)) {k k' : String}
    (h : k' ≠ k) : alookup (aerase l k) k' = alookup l k' := by
  have h' : k ≠ k' := Ne.symm h
  induction l with
  | nil => simp [aerase]
  | cons p rest ih =>
    obtain ⟨k'', w⟩ := p
    by_cases hk : k'' = k
    · subst hk
      simp [aerase, alookup, h']
    · simp [aerase, alookup, hk, ih]

theorem mem_insertSet {l : List String} {x y : String} :
    y ∈ insertSet l x ↔ y ∈ l ∨ y = x := by
  unfold insertSet
  split
  · constructor
    · exact fun h => Or.inl h
    · rintro (h | rfl)
      · exact h
      · assumption
  · simp

theorem length_insertSet_le (l : List String) (x : String) :
    (insertSet l x).length ≤ l.length + 1 := by
  unfold insertSet
  split
  · omega
  · simp

/-! ### Field-preservation lemmas for the scheduler's operations -/

theorem startTask_maxConcurrent (s : QState) (taskId : String) (now : Nat) :
    (startTask s taskId now).maxConcurrent = s.maxConcurrent := by
  unfold startTask; split <;> rfl

theorem startTask_executors (s : QState) (taskId : String) (now : Nat) :
    (startTask s taskId now).executors = s.executors := by
  unfold startTask; split <;> rfl

theorem startTask_pendingQueue (s : QState) (taskId : String) (now : Nat) :
    (startTask s taskId now).pendingQueue = s.pendingQueue := by
  unfold startTask; split <;> rfl

theorem pqGo_maxConcurrent (now : Nat) :
    ∀ (q : List String) (s : QState), (pqGo now q s).maxConcurrent = s.maxConcurrent := by
  intro q
  induction q with
  | nil => intro s; rfl
  | cons taskId rest ih =>
    intro s
    simp only [pqGo]
    split
    · split
      · rw [ih]
        simp [launch, startTask_maxConcurrent]
      · exact ih s
    · rfl

theorem pqGo_executors (now : Nat) :
    ∀ (q : List String) (s : QState), (pqGo now q s).executors = s.executors := by
  intro q
  induction q with
  | nil => intro s; rfl
  | cons taskId rest ih =>
    intro s
    simp only [pqGo]
    split
    · split
      · rw [ih]
        simp [launch, startTask_executors]
      · exact ih s
    · rfl

theorem processQueue_maxConcurrent (now : Nat) (s : QState) :
    (processQueue now s).maxConcurrent = s.maxConcurrent := by
  unfold processQueue
  rw [pqGo_maxConcurrent]

theorem processQueue_executors (now : Nat) (s : QState) :
    (processQueue now s).executors = s.executors := by
  unfold processQueue
  rw [pqGo_executors]

/-! ### C1: the Running set never exceeds `maxConcurrent` -/

theorem startTask_running_length {s : QState} {taskId : String} {now : Nat}
    (h : s.running.length < s.maxConcurrent) :
    (startTask s taskId now).running.length ≤ s.maxConcurrent := by
  unfold startTask
  split
  · exact Nat.le_of_lt h
  · have := length_insertSet_le s.running taskId
    simp only []
    omega

theorem pqGo_boundInv (now : Nat) :
    ∀ (q : List String) (s : QState),
      s.running.length ≤ s.maxConcurrent →
      (pqGo now q s).running.length ≤ (pqGo now q s).maxConcurrent := by
  intro q
  induction q with
  | nil => intro s h; exact h
  | cons taskId rest ih =>
    intro s h
    simp only [pqGo]
    split
    · split
      · apply ih
        simp only [launch]
        rw [startTask_maxConcurrent]
        exact startTask_running_length (by assumption)
      · exact ih s h
    · exact h

theorem processQueue_boundInv {s : QState} (now : Nat)
    (h : s.running.length ≤ s.maxConcurrent) :
    (processQueue now s).running.length ≤ (processQueue now s).maxConcurrent := by
  unfold processQueue
  exact pqGo_boundInv now s.pendingQueue _ h

theorem erase_running_le (l : List String) (x : String) :
    (l.erase x).length ≤ l.length :=
  (List.erase_sublist x l).length_le

theorem completeTask_maxConcurrent (s : QState) (taskId : String) (r now : Nat) :
    (completeTask s taskId r now).maxConcurrent = s.maxConcurrent := by
  unfold completeTask
  split
  · rfl
  · rw [processQueue_maxConcurrent]

theorem completeTask_bound {s : QState} (taskId : String) (r now : Nat)
    (h : s.running.length ≤ s.maxConcurrent) :
    (completeTask s taskId r now).running.length
      ≤ (completeTask s taskId r now).maxConcurrent := by
  unfold completeTask
  split
  · exact h
  · exact processQueue_boundInv now (le_trans (erase_running_le _ _) h)

theorem failTask_maxConcurrent (s : QState) (taskId error : String) (now : Nat) :
    (failTask s taskId error now).maxConcurrent = s.maxConcurrent := by
  unfold failTask
  split
  · rfl
  · rw [processQueue_maxConcurrent]

theorem failTask_bound {s : QState} (taskId error : String) (now : Nat)
    (h : s.running.length ≤ s.maxConcurrent) :
    (failTask s taskId error now).running.length
      ≤ (failTask s taskId error now).maxConcurrent := by
  unfold failTask
  split
  · exact h
  · exact processQueue_boundInv now (le_trans (erase_running_le _ _) h)

theorem cancelTask_maxConcurrent (s : QState) (taskId : String) (now : Nat) :
    (cancelTask s taskId now).maxConcurrent = s.maxConcurrent := by
  unfold cancelTask
  split
  · rfl
  · rw [processQueue_maxConcurrent]

theorem cancelTask_bound {s : QState} (taskId : String) (now : Nat)
    (h : s.running.length ≤ s.maxConcurrent) :
    (cancelTask s taskId now).running.length
      ≤ (cancelTask s taskId now).maxConcurrent := by
  unfold cancelTask
  split
  · exact h
  · exact processQueue_boundInv now (le_trans (erase_running_le _ _) h)

theorem settleOutcome_maxConcurrent (s : QState) (taskId : String) (out : Outcome)
    (now : Nat) : (settleOutcome s taskId out now).maxConcurrent = s.maxConcurrent := by
  cases out with
  | ok r => exact completeTask_maxConcurrent s taskId r now
  | err m => exact failTask_maxConcurrent s taskId m now

theorem settleOutcome_bound {s : QState} (taskId : String) (out : Outcome) (now : Nat)
    (h : s.running.length ≤ s.maxConcurrent) :
    (settleOutcome s taskId out now).running.length
      ≤ (settleOutcome s taskId out now).maxConcurrent := by
  cases out with
  | ok r => exact completeTask_bound taskId r now h
  | err m => exact failTask_bound taskId m now h

theorem step_GInv {s : QState} (e : Event) (h : GInv s) : GInv (step s e) := by
  obtain ⟨hb, hm⟩ := h
  cases e with
  | add v n t ex now =>
    refine ⟨processQueue_boundInv now hb, ?_⟩
    simpa [step, addTask, processQueue_maxConcurrent] using hm
  | settle i now =>
    show GInv (settleAt s i now)
    unfold settleAt
    split
    · exact ⟨hb, hm⟩
    · rename_i taskId ex heq
      constructor
      · apply processQueue_boundInv
        exact settleOutcome_bound taskId ex.outcome now hb
      · rw [processQueue_maxConcurrent]
        show (settleOutcome _ taskId ex.outcome now).maxConcurrent = 3
        rw [settleOutcome_maxConcurrent]
        exact hm
  | cancel taskId now =>
    refine ⟨cancelTask_bound taskId now hb, ?_⟩
    show (cancelTask s taskId now).maxConcurrent = 3
    rw [cancelTask_maxConcurrent]
    exact hm
  | update taskId p =>
    show GInv (updateTask s taskId p)
    unfold updateTask
    split
    · exact ⟨hb, hm⟩
    · exact ⟨hb, hm⟩

theorem runFrom_GInv : ∀ (evs : List Event) (s : QState), GInv s → GInv (runFrom s evs) := by
  intro evs
  induction evs with
  | nil => intro s h; exact h
  | cons e rest ih =>
    intro s h
    exact ih (step s e) (step_GInv e h)

/-- C1: over every event sequence (submissions, settlements, cancellations,
progress updates, in any interleaving), the number of running jobs never
exceeds `maxConcurrent`, which stays at its hard-coded value 3. -/
theorem runningBoundedByMaxConcurrent (evs : List Event) :
    (runQ evs).running.length ≤ (runQ evs).maxConcurrent ∧
      (runQ evs).maxConcurrent = 3 :=
  runFrom_GInv evs initialState ⟨by simp [initialState], rfl⟩

/-- C6: with `maxConcurrent = 2` and jobs submitted in order A, B, C, D,
A and B run while C and D queue in FIFO order; when A reaches a terminal
state, C (not D) is the next job to transition to Running. -/
theorem fifoAdmission :
    (runFrom { initialState with maxConcurrent := 2 } fifoTrace).running
        = ["a-subtitle-0", "b-subtitle-0"] ∧
    (runFrom { initialState with maxConcurrent := 2 } fifoTrace).pendingQueue
        = ["c-subtitle-0", "d-subtitle-0"] ∧
    ((alookup (runFrom { initialState with maxConcurrent := 2 }
        (fifoTrace ++ [.settle 0 1])).tasks "a-subtitle-0").map Task.status
        = some .completed) ∧
    ((alookup (runFrom { initialState with maxConcurrent := 2 }
        (fifoTrace ++ [.settle 0 1])).tasks "c-subtitle-0").map Task.status
        = some .running) ∧
    ((alookup (runFrom { initialState with maxConcurrent := 2 }
        (fifoTrace ++ [.settle 0 1])).tasks "d-subtitle-0").map Task.status
        = some .pending) ∧
    (runFrom { initialState with maxConcurrent := 2 }
        (fifoTrace ++ [.settle 0 1])).running
        = ["b-subtitle-0", "c-subtitle-0"] := by decide

/-- C3: cancelling the Pending job D marks it Cancelled, but its id is NOT
removed from the pending queue; as soon as a slot frees, `processQueue`
starts the cancelled task — it transitions to Running and its work unit is
invoked (its executor tag 4 appears in the invocation log). -/
theorem cancelledPendingTaskStillRuns :
    ((alookup (runQ cancelPendingTrace).tasks "d-subtitle-0").map Task.status
        = some .cancelled) ∧
    (runQ cancelPendingTrace).pendingQueue = ["d-subtitle-0"] ∧
    ((alookup (runQ (cancelPendingTrace ++ [.settle 0 2])).tasks
        "d-subtitle-0").map Task.status = some .running) ∧
    (runQ (cancelPendingTrace ++ [.settle 0 2])).invocations.count
        ("d-subtitle-0", 4) = 1 := by decide

/-- C10: two submissions with the same videoId, type and `Date.now()` derive
the same id; the task map keeps a single record (the second overwrites the
first), the executor map holds the second work unit, the pending queue holds
the id twice, the first work unit (tag 41) is never invoked, and the awaiting
caller observes the second submission's result 202. -/
theorem collidingIdsOverwrite :
    taskIdOf "d" .subtitle 7 = "d-subtitle-7" ∧
    ((runQ collidingTrace).tasks.map Prod.fst).count "d-subtitle-7" = 1 ∧
    alookup (runQ collidingTrace).executors "d-subtitle-7"
        = some { tag := 42, outcome := .ok 202 } ∧
    (runQ collidingTrace).pendingQueue = ["d-subtitle-7", "d-subtitle-7"] ∧
    ((runQ (collidingTrace ++
        [.settle 0 8, .settle 0 9, .settle 0 10, .settle 0 11,
         .settle 0 12])).invocations.map Prod.snd).count 41 = 0 ∧
    ((alookup (runQ (collidingTrace ++
        [.settle 0 8, .settle 0 9, .settle 0 10, .settle 0 11,
         .settle 0 12])).tasks "d-subtitle-7").map Task.result
        = some (some 202)) := by decide

/-- C7 counterexample: `updateTask` applies no clamp and no monotonicity
check — a report of 150 (outside [0,100]) is stored verbatim, and a
subsequent lower report of 5 overwrites it (the previous value is not
kept). -/
theorem progressNotClamped :
    ((alookup (runQ [.add "a" "A" .subtitle (exOk 1) 0,
        .update "a-subtitle-0" { progress := some 150 }]).tasks
        "a-subtitle-0").map Task.progress = some 150) ∧
    ((alookup (runQ [.add "a" "A" .subtitle (exOk 1) 0,
        .update "a-subtitle-0" { progress := some 150 },
        .update "a-subtitle-0" { progress := some 5 }]).tasks
        "a-subtitle-0").map Task.progress = some 5) := by decide

/-- C7 amended: `updateTask` performs `Object.assign` — the reported progress
is stored verbatim, with no clamping to [0,100], no monotonicity check, and
no error; the stored record is the old one with the patched fields
overwritten. -/
theorem updateTaskStoresVerbatim (s : QState) (taskId : String) (t : Task)
    (p : Int) (stg : Option String)
    (h : alookup s.tasks taskId = some t) :
    alookup (updateTask s taskId { progress := some p, stage := stg }).tasks taskId
      = some { t with progress := p, stage := stg.getD t.stage } := by
  simp only [updateTask, h]
  rw [alookup_aset_self]
  simp [applyPatch]

/-- Witness for `updateTaskStoresVerbatim` at a concrete state: the running
task "a-subtitle-0" with progress 0 has 150 stored verbatim. -/
theorem updateTaskStoresVerbatim_witness :
    alookup (runQ [.add "a" "A" .subtitle (exOk 1) 0]).tasks "a-subtitle-0"
        = some { id := "a-subtitle-0", videoId := "a", videoName := "A",
                 type := .subtitle, status := .running, progress := 0,
                 stage := "Waiting in queue...", startTime := some 0 } ∧
    alookup (updateTask (runQ [.add "a" "A" .subtitle (exOk 1) 0])
        "a-subtitle-0" { progress := some 150, stage := none }).tasks
        "a-subtitle-0"
        = some { id := "a-subtitle-0", videoId := "a", videoName := "A",
                 type := .subtitle, status := .running, progress := 150,
                 stage := "Waiting in queue...", startTime := some 0 } :=
  ⟨by decide,
   updateTaskStoresVerbatim (runQ [.add "a" "A" .subtitle (exOk 1) 0])
     "a-subtitle-0"
     { id := "a-subtitle-0", videoId := "a", videoName := "A",
       type := .subtitle, status := .running, progress := 0,
       stage := "Waiting in queue...", startTime := some 0 }
     150 none (by decide)⟩

/-- C4 counterexample: (i) a job cancelled from Running reaches the terminal
state Cancelled with neither `error` nor `result` set; (ii) `updateTask` can
store progress 100 on a still-Running job; (iii) `cancelTask` on an
already-Completed job overwrites the terminal state, yielding a Cancelled
job with `result` set and progress 100. -/
theorem terminalFieldsCounterexample :
    ((alookup (runQ [.add "a" "A" .subtitle (exOk 1) 0,
        .cancel "a-subtitle-0" 1]).tasks "a-subtitle-0").map
        (fun t => (t.status, t.error, t.result))
        = some (.cancelled, none, none)) ∧
    ((alookup (runQ [.add "b" "B" .subtitle (exOk 1) 0,
        .update "b-subtitle-0" { progress := some 100 }]).tasks
        "b-subtitle-0").map (fun t => (t.status, t.progress))
        = some (.running, 100)) ∧
    ((alookup (runQ [.add "c" "C" .subtitle { tag := 9, outcome := .ok 99 } 0,
        .settle 0 1, .cancel "c-subtitle-0" 2]).tasks "c-subtitle-0").map
        (fun t => (t.status, t.result, t.progress))
        = some (.cancelled, some 99, 100)) := by decide

/-! ### C5: job failures are caught, stored, and do not block admission -/

theorem startTask_tasks_ne (s : QState) {taskId id : String} (now : Nat)
    (h : id ≠ taskId) :
    alookup (startTask s taskId now).tasks id = alookup s.tasks id := by
  unfold startTask
  split
  · rfl
  · exact alookup_aset_ne _ _ h

theorem startTask_running_mem (s : QState) (taskId : String) (now : Nat)
    {id : String} (h : id ∈ s.running) :
    id ∈ (startTask s taskId now).running := by
  unfold startTask
  split
  · exact h
  · exact mem_insertSet.mpr (Or.inl h)

theorem startTask_runningAt (s : QState) (taskId : String) (now : Nat)
    {id : String}
    (h : (alookup s.tasks id).map Task.status = some TaskStatus.running) :
    (alookup (startTask s taskId now).tasks id).map Task.status
      = some TaskStatus.running := by
  by_cases hid : id = taskId
  · subst hid
    unfold startTask
    cases hl : alookup s.tasks id with
    | none => rw [hl] at h; simp at h
    | some task =>
      simp only [hl]
      rw [alookup_aset_self]
      rfl
  · rw [startTask_tasks_ne s now hid]
    exact h

theorem pqGo_tasks_notmem (now : Nat) :
    ∀ (q : List String) (s : QState) {id : String}, id ∉ q →
      alookup (pqGo now q s).tasks id = alookup s.tasks id := by
  intro q
  induction q with
  | nil => intro s id _; rfl
  | cons hd rest ih =>
    intro s id hid
    have hne : id ≠ hd := fun hh => hid (hh ▸ List.mem_cons_self hd rest)
    have hrest : id ∉ rest := fun hh => hid (List.mem_cons_of_mem hd hh)
    simp only [pqGo]
    split
    · split
      · rw [ih _ hrest]
        exact startTask_tasks_ne s now hne
      · exact ih _ hrest
    · rfl

theorem pqGo_running_mem (now : Nat) :
    ∀ (q : List String) (s : QState) {id : String}, id ∈ s.running →
      id ∈ (pqGo now q s).running := by
  intro q
  induction q with
  | nil => intro s id h; exact h
  | cons hd rest ih =>
    intro s id h
    simp only [pqGo]
    split
    · split
      · exact ih _ (startTask_running_mem s hd now h)
      · exact ih _ h
    · exact h

theorem pqGo_runningAt (now : Nat) :
    ∀ (q : List String) (s : QState) {id : String},
      (alookup s.tasks id).map Task.status = some TaskStatus.running →
      (alookup (pqGo now q s).tasks id).map Task.status = some TaskStatus.running := by
  intro q
  induction q with
  | nil => intro s id h; exact h
  | cons hd rest ih =>
    intro s id h
    simp only [pqGo]
    split
    · split
      · exact ih _ (startTask_runningAt s hd now h)
      · exact ih _ h
    · exact h

theorem pqGo_queue_sublist (now : Nat) :
    ∀ (q : List String) (s : QState), s.pendingQueue = [] →
      List.Sublist (pqGo now q s).pendingQueue q := by
  intro q
  induction q with
  | nil =>
    intro s h
    simp only [pqGo]
    rw [h]
  | cons hd rest ih =>
    intro s h
    simp only [pqGo]
    split
    · split
      · exact (ih _ (by simp [launch, startTask_pendingQueue, h])).cons hd
      · exact (ih _ h).cons hd
    · exact List.Sublist.refl _

theorem processQueue_tasks_notmem (now : Nat) (s : QState) {id : String}
    (h : id ∉ s.pendingQueue) :
    alookup (processQueue now s).tasks id = alookup s.tasks id := by
  unfold processQueue
  exact pqGo_tasks_notmem now s.pendingQueue _ h

theorem processQueue_running_mem (now : Nat) (s : QState) {id : String}
    (h : id ∈ s.running) : id ∈ (processQueue now s).running := by
  unfold processQueue
  exact pqGo_running_mem now s.pendingQueue _ h

theorem processQueue_runningAt (now : Nat) (s : QState) {id : String}
    (h : (alookup s.tasks id).map Task.status = some TaskStatus.running) :
    (alookup (processQueue now s).tasks id).map Task.status
      = some TaskStatus.running := by
  unfold processQueue
  exact pqGo_runningAt now s.pendingQueue _ h

theorem processQueue_queue_sublist (now : Nat) (s : QState) :
    List.Sublist (processQueue now s).pendingQueue s.pendingQueue := by
  unfold processQueue
  exact pqGo_queue_sublist now s.pendingQueue _ rfl

/-- C5: when a running job's work unit rejects with message `m`, the
scheduler catches it (`failTask` is total — the scheduling path cannot
throw), stores the message as the job's `error`, marks the job Failed, and
admission continues immediately: the head `q0` of the pending queue (with its
task and executor registered and a slot free after the failed job leaves the
running set) transitions to Running in the very same step. -/
theorem failureCaughtAndQueueContinues
    (s : QState) (i now : Nat) (taskId : String) (ex : Exec) (m : String)
    (t : Task) (q0 : String) (rest : List String) (tq : Task) (exq : Exec)
    (hget : s.inFlight.get? i = some (taskId, ex))
    (hout : ex.outcome = .err m)
    (ht : alookup s.tasks taskId = some t)
    (hq : s.pendingQueue = q0 :: rest)
    (hq0 : q0 ≠ taskId)
    (hnotq : taskId ∉ s.pendingQueue)
    (htq : alookup s.tasks q0 = some tq)
    (hexq : alookup s.executors q0 = some exq)
    (hslot : (s.running.erase taskId).length < s.maxConcurrent) :
    alookup (settleAt s i now).tasks taskId
        = some { t with status := .failed, endTime := some now, error := some m } ∧
    ((alookup (settleAt s i now).tasks q0).map Task.status
        = some TaskStatus.running) ∧
    q0 ∈ (settleAt s i now).running := by
  have hnq0 : taskId ∉ q0 :: rest := hq ▸ hnotq
  have hnrest : taskId ∉ rest := fun hh => hnq0 (List.mem_cons_of_mem q0 hh)
  have htne : taskId ≠ q0 := fun hh => hnq0 (hh ▸ List.mem_cons_self q0 rest)
  -- the record `failTask` writes for the failed job
  set tF : Task := { t with status := .failed, endTime := some now, error := some m }
    with htF
  -- the state right after `failTask`'s bookkeeping, before its `processQueue`
  set sFail : QState :=
    { s with
      tasks := aset s.tasks taskId tF,
      running := s.running.erase taskId,
      inFlight := s.inFlight.eraseIdx i } with hsFail
  -- reduce `settleAt` to the `failTask` shape
  have e1 : settleAt s i now
      = processQueue now
          { (processQueue now sFail) with
            executors := aerase (processQueue now sFail).executors taskId } := by
    have e2 : failTask { s with inFlight := s.inFlight.eraseIdx i } taskId m now
        = processQueue now sFail := by
      show (match alookup s.tasks taskId with
        | none => ({ s with inFlight := s.inFlight.eraseIdx i } : QState)
        | some task => processQueue now
            { s with
              tasks := aset s.tasks taskId
                { task with status := .failed, endTime := some now, error := some m },
                            running := s.running.erase taskId,
              inFlight := s.inFlight.eraseIdx i }) = processQueue now sFail
      rw [ht]
    simp only [settleAt, hget, hout, settleOutcome]
    rw [e2]
  -- the state after the one admission step the first `processQueue` performs
  set sAdm : QState :=
    launch (startTask { sFail with pendingQueue := [] } q0 now) q0 exq with hsAdm
  have hTq0 : alookup ({ sFail with pendingQueue := [] } : QState).tasks q0 = some tq := by
    show alookup (aset s.tasks taskId tF) q0 = some tq
    rw [alookup_aset_ne _ _ hq0, htq]
  have hpq1 : processQueue now sFail = pqGo now rest sAdm := by
    show pqGo now sFail.pendingQueue { sFail with pendingQueue := [] } = pqGo now rest sAdm
    rw [show sFail.pendingQueue = q0 :: rest from hq]
    simp only [pqGo]
    rw [if_pos (show ({ sFail with pendingQueue := [] } : QState).running.length
        < ({ sFail with pendingQueue := [] } : QState).maxConcurrent from hslot)]
    rw [hTq0]
    rw [show alookup ({ sFail with pendingQueue := [] } : QState).executors q0
        = some exq from hexq]
  -- facts at the admission state
  have fT : alookup sAdm.tasks taskId = some tF := by
    rw [hsAdm]
    show alookup (launch (startTask { sFail with pendingQueue := [] } q0 now) q0 exq).tasks
        taskId = some tF
    show alookup (startTask { sFail with pendingQueue := [] } q0 now).tasks taskId = some tF
    rw [startTask_tasks_ne _ now htne]
    show alookup (aset s.tasks taskId tF) taskId = some tF
    rw [alookup_aset_self]
  have fQ : (alookup sAdm.tasks q0).map Task.status = some TaskStatus.running := by
    rw [hsAdm]
    show (alookup (startTask { sFail with pendingQueue := [] } q0 now).tasks q0).map
        Task.status = some TaskStatus.running
    unfold startTask
    rw [hTq0]
    show (alookup (aset _ q0 { tq with status := .running, startTime := some now }) q0).map
        Task.status = some TaskStatus.running
    rw [alookup_aset_self]
    rfl
  have fR : q0 ∈ sAdm.running := by
    rw [hsAdm]
    show q0 ∈ (startTask { sFail with pendingQueue := [] } q0 now).running
    unfold startTask
    rw [hTq0]
    exact mem_insertSet.mpr (Or.inr rfl)
  have fP : sAdm.pendingQueue = [] := by
    rw [hsAdm]
    show (startTask { sFail with pendingQueue := [] } q0 now).pendingQueue = []
    rw [startTask_pendingQueue]
  -- push the facts through the rest of the first drain
  have gT : alookup (processQueue now sFail).tasks taskId = some tF := by
    rw [hpq1, pqGo_tasks_notmem now rest sAdm hnrest]
    exact fT
  have gQ : (alookup (processQueue now sFail).tasks q0).map Task.status
      = some TaskStatus.running := by
    rw [hpq1]
    exact pqGo_runningAt now rest sAdm fQ
  have gR : q0 ∈ (processQueue now sFail).running := by
    rw [hpq1]
    exact pqGo_running_mem now rest sAdm fR
  have gP : taskId ∉ (processQueue now sFail).pendingQueue := by
    rw [hpq1]
    intro hmem
    exact hnrest ((pqGo_queue_sublist now rest sAdm fP).subset hmem)
  -- and through the `.finally` handler's second `processQueue`
  rw [e1]
  refine ⟨?_, ?_, ?_⟩
  · exact (processQueue_tasks_notmem now
      { processQueue now sFail with
        executors := aerase (processQueue now sFail).executors taskId } gP).trans gT
  · exact processQueue_runningAt now _ gQ
  · exact processQueue_running_mem now _ gR

/-- Witness for `failureCaughtAndQueueContinues`: slots full with jobs a, b,
c (a's work unit rejects with "boom"), job d Pending; settling a stores the
error, marks a Failed, and admits d. -/
theorem failureCaughtAndQueueContinues_witness :
    (runQ [.add "a" "A" .subtitle { tag := 1, outcome := .err "boom" } 0,
           .add "b" "B" .subtitle (exOk 2) 0,
           .add "c" "C" .subtitle (exOk 3) 0,
           .add "d" "D" .subtitle (exOk 4) 0]).inFlight.get? 0
        = some ("a-subtitle-0", { tag := 1, outcome := .err "boom" }) ∧
    (alookup (settleAt (runQ [.add "a" "A" .subtitle { tag := 1, outcome := .err "boom" } 0,
           .add "b" "B" .subtitle (exOk 2) 0,
           .add "c" "C" .subtitle (exOk 3) 0,
           .add "d" "D" .subtitle (exOk 4) 0]) 0 1).tasks "a-subtitle-0"
        = some { id := "a-subtitle-0", videoId := "a", videoName := "A",
                 type := .subtitle, status := .failed, progress := 0,
                 stage := "Waiting in queue...", startTime := some 0,
                 endTime := some 1, error := some "boom", result := none } ∧
     (alookup (settleAt (runQ [.add "a" "A" .subtitle { tag := 1, outcome := .err "boom" } 0,
           .add "b" "B" .subtitle (exOk 2) 0,
           .add "c" "C" .subtitle (exOk 3) 0,
           .add "d" "D" .subtitle (exOk 4) 0]) 0 1).tasks "d-subtitle-0").map Task.status
        = some TaskStatus.running ∧
     "d-subtitle-0" ∈ (settleAt (runQ [.add "a" "A" .subtitle { tag := 1, outcome := .err "boom" } 0,
           .add "b" "B" .subtitle (exOk 2) 0,
           .add "c" "C" .subtitle (exOk 3) 0,
           .add "d" "D" .subtitle (exOk 4) 0]) 0 1).running) :=
  ⟨by decide,
   failureCaughtAndQueueContinues
     (runQ [.add "a" "A" .subtitle { tag := 1, outcome := .err "boom" } 0,
            .add "b" "B" .subtitle (exOk 2) 0,
            .add "c" "C" .subtitle (exOk 3) 0,
            .add "d" "D" .subtitle (exOk 4) 0])
     0 1 "a-subtitle-0" { tag := 1, outcome := .err "boom" } "boom"
     { id := "a-subtitle-0", videoId := "a", videoName := "A",
       type := .subtitle, status := .running, progress := 0,
       stage := "Waiting in queue...", startTime := some 0 }
     "d-subtitle-0" []
     { id := "d-subtitle-0", videoId := "d", videoName := "D",
       type := .subtitle, status := .pending, progress := 0,
       stage := "Waiting in queue..." }
     (exOk 4)
     (by decide) rfl (by decide) (by decide) (by decide) (by decide)
     (by decide) (by decide) (by decide)⟩

/-! ### C4: reachability invariant for terminal-state field consistency -/

theorem count_map_fst_eraseIdx {β : Type} :
    ∀ (l : List (String × β)) (i : Nat) (p : String × β), l.get? i = some p →
      ∀ x, (l.map Prod.fst).count x
        = ((l.eraseIdx i).map Prod.fst).count x + (if p.1 = x then 1 else 0) := by
  intro l
  induction l with
  | nil => intro i p hp x; simp at hp
  | cons a t ih =>
    intro i p hp x
    cases i with
    | zero =>
      simp only [List.get?] at hp
      injection hp with hp
      subst hp
      simp [List.count_cons]
    | succ i =>
      simp only [List.get?] at hp
      have hrec := ih i p hp x
      simp only [List.eraseIdx, List.map, List.count_cons]
      omega

theorem flightIds_mem_of_get {s : QState} {i : Nat} {taskId : String} {ex : Exec}
    (h : s.inFlight.get? i = some (taskId, ex)) : taskId ∈ flightIds s :=
  List.mem_map.mpr ⟨(taskId, ex), List.get?_mem h, rfl⟩

theorem consistent_of_status_fresh {t : Task} (hf : Fresh t)
    (hs : t.status = .pending ∨ t.status = .running ∨ t.status = .cancelled) :
    Consistent t := by
  obtain ⟨hr, he, hp⟩ := hf
  refine ⟨fun h => ?_, fun h => ?_, fun _ => ⟨hr, he, hp⟩,
    fun _ => ⟨hr, he, hp⟩, fun _ => ⟨hr, he, hp⟩⟩
  · rcases hs with h' | h' | h' <;> simp [h'] at h
  · rcases hs with h' | h' | h' <;> simp [h'] at h

theorem pendq_set_eta (s : QState) (h : s.pendingQueue = []) :
    ({ s with pendingQueue := [] } : QState) = s := by
  cases s
  simp_all

theorem startStep_Inv (now : Nat) (added : List String) (s : QState)
    (id : String) (task : Task) (ex : Exec) (rest : List String)
    (hinv : Inv added { s with pendingQueue := id :: rest })
    (htask : alookup s.tasks id = some task)
    (hex : alookup s.executors id = some ex) :
    Inv added { (launch (startTask s id now) id ex) with pendingQueue := rest } := by
  obtain ⟨IA, IB, IC, ID, IE⟩ := hinv
  have hQ : QueuedOk { s with pendingQueue := id :: rest } id :=
    IB id (List.mem_cons_self id rest)
  obtain ⟨⟨t0, ht0, hst0, hfr0⟩, _⟩ := hQ
  have ht0s : alookup s.tasks id = some t0 := ht0
  have hteq : task = t0 := by
    rw [htask] at ht0s
    exact Option.some.inj ht0s
  subst hteq
  have IAid : (id :: rest).count id + (flightIds s).count id ≤ 1 := IA id
  have hcons : (id :: rest).count id = rest.count id + 1 := by
    simp [List.count_cons]
  have hrest0 : rest.count id = 0 := by omega
  have hflight0 : (flightIds s).count id = 0 := by omega
  have hnr : id ∉ rest := by
    intro hmem
    have := List.count_pos_iff.mpr hmem
    omega
  have hnf : id ∉ flightIds s := by
    intro hmem
    have := List.count_pos_iff.mpr hmem
    omega
  have hsS : startTask s id now
      = { s with
          tasks := aset s.tasks id { task with status := .running, startTime := some now },
                                               running := insertSet s.running id } := by
    unfold startTask
    rw [htask]
  rw [hsS]
  simp only [launch]
  refine ⟨?_, ?_, ?_, ?_, ?_⟩
  · intro j
    show List.count j rest
        + List.count j ((s.inFlight ++ [(id, ex)]).map Prod.fst) ≤ 1
    rw [List.map_append, List.count_append]
    have h4 : List.count j (List.map Prod.fst s.inFlight)
        = List.count j (flightIds s) := rfl
    by_cases hj : j = id
    · subst hj
      have h2 : List.count j (List.map Prod.fst [(j, ex)]) = 1 := by simp
      omega
    · have IAj : List.count j (id :: rest) + List.count j (flightIds s) ≤ 1 := IA j
      have h1 : List.count j (id :: rest) = List.count j rest := by
        simp [List.count_cons, hj]
      have h2 : List.count j (List.map Prod.fst [(id, ex)]) = 0 := by simp [hj]
      omega
  · intro j hj
    have hjrest : j ∈ rest := hj
    have hjne : j ≠ id := fun hh => hnr (hh ▸ hjrest)
    have hjib : QueuedOk { s with pendingQueue := id :: rest } j :=
      IB j (List.mem_cons_of_mem id hjrest)
    obtain ⟨⟨tj, htj, hstj, hfrj⟩, ⟨exj, hexj⟩⟩ := hjib
    refine ⟨⟨tj, ?_, hstj, hfrj⟩, ⟨exj, hexj⟩⟩
    show alookup (aset s.tasks id _) j = some tj
    rw [alookup_aset_ne _ _ hjne]
    exact htj
  · intro j hj
    have hj' : j ∈ (s.inFlight ++ [(id, ex)]).map Prod.fst := hj
    rw [List.map_append, List.mem_append] at hj'
    rcases hj' with hj' | hj'
    · have hjne : j ≠ id := fun hh => hnf (hh ▸ hj')
      obtain ⟨tj, htj, hstj, hfrj⟩ := IC j hj'
      refine ⟨tj, ?_, hstj, hfrj⟩
      show alookup (aset s.tasks id _) j = some tj
      rw [alookup_aset_ne _ _ hjne]
      exact htj
    · have hjid : j = id := by simpa using hj'
      subst hjid
      refine ⟨{ task with status := .running, startTime := some now }, ?_, Or.inl rfl, ?_⟩
      · show alookup (aset s.tasks j _) j = some _
        rw [alookup_aset_self]
      · obtain ⟨hr, he, hp⟩ := hfr0
        exact ⟨hr, he, hp⟩
  · intro j t hjt
    by_cases hj : j = id
    · subst hj
      have : alookup (aset s.tasks j
          { task with status := .running, startTime := some now }) j
          = some { task with status := .running, startTime := some now } :=
        alookup_aset_self _ _ _
      have hjt' : alookup (aset s.tasks j
          { task with status := .running, startTime := some now }) j = some t := hjt
      rw [this] at hjt'
      have ht' := Option.some.inj hjt'
      subst ht'
      refine consistent_of_status_fresh ?_ (Or.inr (Or.inl rfl))
      obtain ⟨hr, he, hp⟩ := hfr0
      exact ⟨hr, he, hp⟩
    · have hjt' : alookup s.tasks j = some t := by
        have : alookup (aset s.tasks id
            { task with status := .running, startTime := some now }) j = some t := hjt
        rwa [alookup_aset_ne _ _ hj] at this
      exact ID j t hjt'
  · intro j hj
    rcases hj with hj | hj
    · exact IE j (Or.inl (List.mem_cons_of_mem id hj))
    · have hj' : j ∈ (s.inFlight ++ [(id, ex)]).map Prod.fst := hj
      rw [List.map_append, List.mem_append] at hj'
      rcases hj' with hj' | hj'
      · exact IE j (Or.inr hj')
      · have hjid : j = id := by simpa using hj'
        subst hjid
        exact IE j (Or.inl (List.mem_cons_self j rest))

theorem pqGo_Inv (now : Nat) (added : List String) :
    ∀ (q : List String) (s : QState), s.pendingQueue = [] →
      Inv added { s with pendingQueue := q } →
      Inv added (pqGo now q s) := by
  intro q
  induction q with
  | nil =>
    intro s hpq hinv
    show Inv added s
    rwa [pendq_set_eta s hpq] at hinv
  | cons id rest ih =>
    intro s hpq hinv
    simp only [pqGo]
    split
    · split
      · rename_i ex htask hex
        rename_i task
        exact ih _ (by simp [launch, startTask_pendingQueue, hpq])
          (startStep_Inv now added s id task ex rest hinv htask hex)
      · rename_i hno
        exfalso
        obtain ⟨_, IB, _, _, _⟩ := hinv
        have hQ : QueuedOk { s with pendingQueue := id :: rest } id :=
          IB id (List.mem_cons_self id rest)
        obtain ⟨⟨t0, ht0, _, _⟩, ⟨ex0, hex0⟩⟩ := hQ
        exact hno t0 ex0 ht0 hex0
    · exact hinv

theorem processQueue_Inv (now : Nat) (added : List String) (s : QState)
    (hinv : Inv added s) : Inv added (processQueue now s) := by
  unfold processQueue
  exact pqGo_Inv now added s.pendingQueue { s with pendingQueue := [] } rfl hinv

theorem consistent_completed {t : Task} (r now : Nat) (he : t.error = none) :
    Consistent { t with status := .completed, progress := 100,
                        endTime := some now, result := some r } := by
  refine ⟨fun _ => ⟨⟨r, rfl⟩, he, rfl⟩, fun h => ?_, fun h => ?_,
    fun h => ?_, fun h => ?_⟩ <;> simp at h

theorem consistent_failed {t : Task} (m : String) (now : Nat)
    (hr : t.result = none) (hp : t.progress = 0) :
    Consistent { t with status := .failed, endTime := some now, error := some m } := by
  refine ⟨fun h => ?_, fun _ => ⟨⟨m, rfl⟩, hr, hp⟩, fun h => ?_,
    fun h => ?_, fun h => ?_⟩ <;> simp at h

theorem consistent_cancelled {t : Task} (now : Nat) (hf : Fresh t) :
    Consistent { t with status := .cancelled, endTime := some now } := by
  obtain ⟨hr, he, hp⟩ := hf
  refine ⟨fun h => ?_, fun h => ?_, fun _ => ⟨hr, he, hp⟩,
    fun h => ?_, fun h => ?_⟩ <;> simp at h

theorem addTask_Inv (added : List String) (s : QState) (v n : String)
    (ty : TaskType) (ex : Exec) (now : Nat)
    (hinv : Inv added s) (hfresh : taskIdOf v ty now ∉ added) :
    Inv (added ++ [taskIdOf v ty now]) (addTask s v n ty ex now) := by
  obtain ⟨IA, IB, IC, ID, IE⟩ := hinv
  have hnq : taskIdOf v ty now ∉ s.pendingQueue :=
    fun h => hfresh (IE _ (Or.inl h))
  have hnf : taskIdOf v ty now ∉ flightIds s :=
    fun h => hfresh (IE _ (Or.inr h))
  show Inv _ (processQueue now _)
  apply processQueue_Inv
  refine ⟨?_, ?_, ?_, ?_, ?_⟩
  · intro j
    show List.count j (s.pendingQueue ++ [taskIdOf v ty now])
        + List.count j (flightIds s) ≤ 1
    rw [List.count_append]
    by_cases hj : j = taskIdOf v ty now
    · have h1 : List.count (taskIdOf v ty now) s.pendingQueue = 0 := by
        by_contra hne
        exact hnq (List.count_pos_iff.mp (Nat.pos_of_ne_zero hne))
      have h2 : List.count (taskIdOf v ty now) (flightIds s) = 0 := by
        by_contra hne
        exact hnf (List.count_pos_iff.mp (Nat.pos_of_ne_zero hne))
      have h3 : List.count (taskIdOf v ty now) [taskIdOf v ty now] = 1 := by simp
      rw [hj]
      omega
    · have h3 : List.count j [taskIdOf v ty now] = 0 := by simp [hj]
      have := IA j
      omega
  · intro j hj
    have hj' : j ∈ s.pendingQueue ++ [taskIdOf v ty now] := hj
    rw [List.mem_append] at hj'
    rcases hj' with hj' | hj'
    · have hjne : j ≠ taskIdOf v ty now := fun hh => hnq (hh ▸ hj')
      obtain ⟨⟨tj, htj, hstj, hfrj⟩, ⟨exj, hexj⟩⟩ := IB j hj'
      refine ⟨⟨tj, ?_, hstj, hfrj⟩, ⟨exj, ?_⟩⟩
      · show alookup (aset s.tasks _ _) j = some tj
        rw [alookup_aset_ne _ _ hjne]
        exact htj
      · show alookup (aset s.executors _ ex) j = some exj
        rw [alookup_aset_ne _ _ hjne]
        exact hexj
    · have hjid : j = taskIdOf v ty now := by simpa using hj'
      subst hjid
      refine ⟨⟨_, alookup_aset_self _ _ _, Or.inl rfl, ⟨rfl, rfl, rfl⟩⟩,
        ⟨ex, alookup_aset_self _ _ _⟩⟩
  · intro j hj
    have hj' : j ∈ flightIds s := hj
    have hjne : j ≠ taskIdOf v ty now := fun hh => hnf (hh ▸ hj')
    obtain ⟨tj, htj, hstj, hfrj⟩ := IC j hj'
    refine ⟨tj, ?_, hstj, hfrj⟩
    show alookup (aset s.tasks _ _) j = some tj
    rw [alookup_aset_ne _ _ hjne]
    exact htj
  · intro j t hjt
    by_cases hj : j = taskIdOf v ty now
    · subst hj
      have hjt' : alookup (aset s.tasks (taskIdOf v ty now)
          { id := taskIdOf v ty now, videoId := v, videoName := n, type := ty,
            status := .pending, progress := 0, stage := "Waiting in queue..." })
          (taskIdOf v ty now) = some t := hjt
      rw [alookup_aset_self] at hjt'
      have ht' := Option.some.inj hjt'
      subst ht'
      exact consistent_of_status_fresh ⟨rfl, rfl, rfl⟩ (Or.inl rfl)
    · have hjt' : alookup s.tasks j = some t := by
        have h0 : alookup (aset s.tasks (taskIdOf v ty now)
            { id := taskIdOf v ty now, videoId := v, videoName := n, type := ty,
              status := .pending, progress := 0, stage := "Waiting in queue..." }) j
            = some t := hjt
        rwa [alookup_aset_ne _ _ hj] at h0
      exact ID j t hjt'
  · intro j hj
    rcases hj with hj | hj
    · have hj' : j ∈ s.pendingQueue ++ [taskIdOf v ty now] := hj
      rw [List.mem_append] at hj'
      rcases hj' with hj' | hj'
      · exact List.mem_append_left _ (IE j (Or.inl hj'))
      · have hjid : j = taskIdOf v ty now := by simpa using hj'
        subst hjid
        exact List.mem_append_right _ (by simp)
    · exact List.mem_append_left _ (IE j (Or.inr hj))

theorem settleWrite_Inv (added : List String) (s1 : QState) (id : String)
    (tNew : Task) (hq : id ∉ s1.pendingQueue) (hf : id ∉ flightIds s1)
    (hinv1 : Inv added s1) (hcons : Consistent tNew) :
    Inv added { s1 with tasks := aset s1.tasks id tNew,
                        running := s1.running.erase id } := by
  obtain ⟨IA, IB, IC, ID, IE⟩ := hinv1
  refine ⟨IA, ?_, ?_, ?_, IE⟩
  · intro j hj
    have hj' : j ∈ s1.pendingQueue := hj
    have hjne : j ≠ id := fun hh => hq (hh ▸ hj')
    obtain ⟨⟨tj, htj, hstj, hfrj⟩, hexj⟩ := IB j hj'
    refine ⟨⟨tj, ?_, hstj, hfrj⟩, hexj⟩
    show alookup (aset s1.tasks id tNew) j = some tj
    rw [alookup_aset_ne _ _ hjne]
    exact htj
  · intro j hj
    have hj' : j ∈ flightIds s1 := hj
    have hjne : j ≠ id := fun hh => hf (hh ▸ hj')
    obtain ⟨tj, htj, hstj, hfrj⟩ := IC j hj'
    refine ⟨tj, ?_, hstj, hfrj⟩
    show alookup (aset s1.tasks id tNew) j = some tj
    rw [alookup_aset_ne _ _ hjne]
    exact htj
  · intro j t hjt
    by_cases hj : j = id
    · subst hj
      have hjt' : alookup (aset s1.tasks j tNew) j = some t := hjt
      rw [alookup_aset_self] at hjt'
      have ht' := Option.some.inj hjt'
      subst ht'
      exact hcons
    · have hjt' : alookup s1.tasks j = some t := by
        have h0 : alookup (aset s1.tasks id tNew) j = some t := hjt
        rwa [alookup_aset_ne _ _ hj] at h0
      exact ID j t hjt'

theorem erase_executor_Inv (added : List String) (s : QState) (id : String)
    (hq : id ∉ s.pendingQueue) (hinv : Inv added s) :
    Inv added { s with executors := aerase s.executors id } := by
  obtain ⟨IA, IB, IC, ID, IE⟩ := hinv
  refine ⟨IA, ?_, IC, ID, IE⟩
  intro j hj
  have hj' : j ∈ s.pendingQueue := hj
  have hjne : j ≠ id := fun hh => hq (hh ▸ hj')
  obtain ⟨htj, ⟨exj, hexj⟩⟩ := IB j hj'
  exact ⟨htj, ⟨exj, (alookup_aerase_ne _ hjne).trans hexj⟩⟩

theorem processQueue_notmem_queue (now : Nat) (s : QState) {id : String}
    (h : id ∉ s.pendingQueue) : id ∉ (processQueue now s).pendingQueue :=
  fun hh => h ((processQueue_queue_sublist now s).subset hh)

theorem settleAt_Inv (added : List String) (s : QState) (i now : Nat)
    (hinv : Inv added s) : Inv added (settleAt s i now) := by
  unfold settleAt
  split
  · exact hinv
  · rename_i taskId ex hget
    obtain ⟨IA, IB, IC, ID, IE⟩ := hinv
    have htmem : taskId ∈ flightIds s := flightIds_mem_of_get hget
    obtain ⟨t, ht, hst, hfr⟩ := IC taskId htmem
    have hfpos : 0 < List.count taskId (flightIds s) := List.count_pos_iff.mpr htmem
    have hqf : List.count taskId s.pendingQueue + List.count taskId (flightIds s) ≤ 1 :=
      IA taskId
    have hnq : taskId ∉ s.pendingQueue := by
      intro h
      have := List.count_pos_iff.mpr h
      omega
    have hcnt := count_map_fst_eraseIdx s.inFlight i (taskId, ex) hget taskId
    have hbr : List.count taskId (List.map Prod.fst s.inFlight)
        = List.count taskId (flightIds s) := rfl
    have hf1 : List.count taskId ((s.inFlight.eraseIdx i).map Prod.fst) = 0 := by
      have hite : (if ((taskId, ex).1 : String) = taskId then 1 else 0) = 1 := if_pos rfl
      rw [hite] at hcnt
      omega
    have hnf1 : taskId ∉ (s.inFlight.eraseIdx i).map Prod.fst := by
      intro h
      have := List.count_pos_iff.mpr h
      omega
    have hsub : List.Sublist ((s.inFlight.eraseIdx i).map Prod.fst)
        (s.inFlight.map Prod.fst) := (List.eraseIdx_sublist s.inFlight i).map Prod.fst
    have hinv1 : Inv added { s with inFlight := s.inFlight.eraseIdx i } := by
      refine ⟨?_, ?_, ?_, ID, ?_⟩
      · intro j
        show List.count j s.pendingQueue
            + List.count j ((s.inFlight.eraseIdx i).map Prod.fst) ≤ 1
        have hle := hsub.count_le j
        have hIAj := IA j
        have hbrj : List.count j (List.map Prod.fst s.inFlight)
            = List.count j (flightIds s) := rfl
        omega
      · intro j hj
        exact IB j hj
      · intro j hj
        have hj' : j ∈ (s.inFlight.eraseIdx i).map Prod.fst := hj
        exact IC j (hsub.subset hj')
      · intro j hj
        rcases hj with hj | hj
        · exact IE j (Or.inl hj)
        · exact IE j (Or.inr (hsub.subset hj))
    cases hout : ex.outcome with
    | ok r =>
      simp only [settleOutcome]
      have hct : completeTask { s with inFlight := s.inFlight.eraseIdx i } taskId r now
          = processQueue now
              { s with
                tasks := aset s.tasks taskId
                  { t with status := .completed, progress := 100,
                           endTime := some now, result := some r },
                running := s.running.erase taskId,
                inFlight := s.inFlight.eraseIdx i } := by
        show (match alookup s.tasks taskId with
          | none => ({ s with inFlight := s.inFlight.eraseIdx i } : QState)
          | some task => processQueue now
              { s with
                tasks := aset s.tasks taskId
                  { task with status := .completed, progress := 100,
                              endTime := some now, result := some r },
                running := s.running.erase taskId,
                inFlight := s.inFlight.eraseIdx i }) = _
        rw [show alookup s.tasks taskId = some t from ht]
      rw [hct]
      have hσ2 : Inv added
          { s with
            tasks := aset s.tasks taskId
              { t with status := .completed, progress := 100,
                       endTime := some now, result := some r },
            running := s.running.erase taskId,
            inFlight := s.inFlight.eraseIdx i } :=
        settleWrite_Inv added { s with inFlight := s.inFlight.eraseIdx i } taskId _
          hnq hnf1 hinv1 (consistent_completed r now hfr.2.1)
      have hP := processQueue_Inv now added _ hσ2
      exact processQueue_Inv now added _ (erase_executor_Inv added _ taskId
        (processQueue_notmem_queue now _ hnq) hP)
    | err m =>
      simp only [settleOutcome]
      have hct : failTask { s with inFlight := s.inFlight.eraseIdx i } taskId m now
          = processQueue now
              { s with
                tasks := aset s.tasks taskId
                  { t with status := .failed, endTime := some now, error := some m },
                           running := s.running.erase taskId,
                inFlight := s.inFlight.eraseIdx i } := by
        show (match alookup s.tasks taskId with
          | none => ({ s with inFlight := s.inFlight.eraseIdx i } : QState)
          | some task => processQueue now
              { s with
                tasks := aset s.tasks taskId
                  { task with status := .failed, endTime := some now, error := some m },
                              running := s.running.erase taskId,
                inFlight := s.inFlight.eraseIdx i }) = _
        rw [show alookup s.tasks taskId = some t from ht]
      rw [hct]
      have hσ2 : Inv added
          { s with
            tasks := aset s.tasks taskId
              { t with status := .failed, endTime := some now, error := some m },
                       running := s.running.erase taskId,
            inFlight := s.inFlight.eraseIdx i } :=
        settleWrite_Inv added { s with inFlight := s.inFlight.eraseIdx i } taskId _
          hnq hnf1 hinv1 (consistent_failed m now hfr.1 hfr.2.2)
      have hP := processQueue_Inv now added _ hσ2
      exact processQueue_Inv now added _ (erase_executor_Inv added _ taskId
        (processQueue_notmem_queue now _ hnq) hP)

theorem cancelTask_Inv (added : List String) (s : QState) (id : String) (now : Nat)
    (hinv : Inv added s)
    (hguard : ∀ t, alookup s.tasks id = some t →
      t.status ≠ .completed ∧ t.status ≠ .failed) :
    Inv added (cancelTask s id now) := by
  unfold cancelTask
  split
  · exact hinv
  · rename_i t ht
    apply processQueue_Inv
    obtain ⟨IA, IB, IC, ID, IE⟩ := hinv
    have hcons := ID id t ht
    obtain ⟨hg1, hg2⟩ := hguard t ht
    have hfr : Fresh t := by
      cases hstatus : t.status with
      | pending => exact hcons.2.2.2.1 hstatus
      | running => exact hcons.2.2.2.2 hstatus
      | cancelled => exact hcons.2.2.1 hstatus
      | completed => exact absurd hstatus hg1
      | failed => exact absurd hstatus hg2
    refine ⟨IA, ?_, ?_, ?_, IE⟩
    · intro j hj
      have hj' : j ∈ s.pendingQueue := hj
      by_cases hjid : j = id
      · subst hjid
        obtain ⟨_, hexj⟩ := IB j hj'
        refine ⟨⟨{ t with status := .cancelled, endTime := some now },
          alookup_aset_self _ _ _, Or.inr rfl, ⟨hfr.1, hfr.2.1, hfr.2.2⟩⟩, hexj⟩
      · obtain ⟨⟨tj, htj, hstj, hfrj⟩, hexj⟩ := IB j hj'
        refine ⟨⟨tj, ?_, hstj, hfrj⟩, hexj⟩
        show alookup (aset s.tasks id _) j = some tj
        rw [alookup_aset_ne _ _ hjid]
        exact htj
    · intro j hj
      have hj' : j ∈ flightIds s := hj
      by_cases hjid : j = id
      · subst hjid
        refine ⟨{ t with status := .cancelled, endTime := some now },
          alookup_aset_self _ _ _, Or.inr rfl, ⟨hfr.1, hfr.2.1, hfr.2.2⟩⟩
      · obtain ⟨tj, htj, hstj, hfrj⟩ := IC j hj'
        refine ⟨tj, ?_, hstj, hfrj⟩
        show alookup (aset s.tasks id _) j = some tj
        rw [alookup_aset_ne _ _ hjid]
        exact htj
    · intro j tj hjt
      by_cases hjid : j = id
      · subst hjid
        have hjt' : alookup (aset s.tasks j
            { t with status := .cancelled, endTime := some now }) j = some tj := hjt
        rw [alookup_aset_self] at hjt'
        have ht' := Option.some.inj hjt'
        subst ht'
        exact consistent_cancelled now hfr
      · have hjt' : alookup s.tasks j = some tj := by
          have h0 : alookup (aset s.tasks id
              { t with status := .cancelled, endTime := some now }) j = some tj := hjt
          rwa [alookup_aset_ne _ _ hjid] at h0
        exact ID j tj hjt'

theorem runQ_append_one (evs : List Event) (e : Event) :
    runQ (evs ++ [e]) = step (runQ evs) e := by
  simp [runQ, runFrom, List.foldl_append]

theorem addIds_append (l1 l2 : List Event) :
    addIds (l1 ++ l2) = addIds l1 ++ addIds l2 := by
  induction l1 with
  | nil => rfl
  | cons e rest ih =>
    cases e with
    | add v n t ex now => simp [addIds, ih]
    | settle i now => simp [addIds, ih]
    | cancel taskId now => simp [addIds, ih]
    | update taskId p => simp [addIds, ih]

theorem noTerminalCancel_prefix (evs : List Event) (e : Event)
    (h : NoTerminalCancel (evs ++ [e])) : NoTerminalCancel evs := by
  intro k hk
  have hk' : k < (evs ++ [e]).length := by
    simp
    omega
  have hg := h k hk'
  have hguard_eq : cancelGuard (evs ++ [e]) k hk' = cancelGuard evs k hk := by
    unfold cancelGuard
    rw [List.get_append k hk, List.take_append_of_le_length (Nat.le_of_lt hk)]
  rw [hguard_eq] at hg
  exact hg

theorem Inv_runQ : ∀ (evs : List Event), (addIds evs).Nodup → NoUpdates evs →
    NoTerminalCancel evs → Inv (addIds evs) (runQ evs) := by
  intro evs
  induction evs using List.reverseRecOn with
  | nil =>
    intro _ _ _
    refine ⟨fun id => ?_, fun id h => ?_, fun id h => ?_, fun id t h => ?_,
      fun id h => ?_⟩
    · simp [runQ, runFrom, initialState, flightIds]
    · simp [runQ, runFrom, initialState] at h
    · simp [runQ, runFrom, initialState, flightIds] at h
    · simp [runQ, runFrom, initialState, alookup] at h
    · simp [runQ, runFrom, initialState, flightIds] at h
  | append_singleton evs e ih =>
    intro h1 h2 h3
    rw [runQ_append_one]
    have h1' : (addIds evs).Nodup := by
      rw [addIds_append] at h1
      exact h1.of_append_left
    have h2' : NoUpdates evs := fun e' he' => h2 e' (List.mem_append_left _ he')
    have h3' : NoTerminalCancel evs := noTerminalCancel_prefix evs e h3
    have hInv := ih h1' h2' h3'
    cases e with
    | add v n ty ex now =>
      have hfresh : taskIdOf v ty now ∉ addIds evs := by
        intro hmem
        rw [addIds_append] at h1
        have hdisj := List.disjoint_of_nodup_append h1
        exact hdisj hmem (by simp [addIds])
      have hres := addTask_Inv (addIds evs) (runQ evs) v n ty ex now hInv hfresh
      have heq : addIds (evs ++ [Event.add v n ty ex now])
          = addIds evs ++ [taskIdOf v ty now] := by
        rw [addIds_append]
        simp [addIds]
      rw [heq]
      exact hres
    | settle i now =>
      have heq : addIds (evs ++ [Event.settle i now]) = addIds evs := by
        rw [addIds_append]
        simp [addIds]
      rw [heq]
      exact settleAt_Inv (addIds evs) (runQ evs) i now hInv
    | cancel taskId now =>
      have heq : addIds (evs ++ [Event.cancel taskId now]) = addIds evs := by
        rw [addIds_append]
        simp [addIds]
      rw [heq]
      have hk : evs.length < (evs ++ [Event.cancel taskId now]).length := by
        simp
      have hg := h3 evs.length hk
      have hguard : ∀ t, alookup (runQ evs).tasks taskId = some t →
          t.status ≠ .completed ∧ t.status ≠ .failed := by
        intro t ht
        unfold cancelGuard at hg
        have hgete : (evs ++ [Event.cancel taskId now]).get ⟨evs.length, hk⟩
            = Event.cancel taskId now := by
          simp
        have htakee : (evs ++ [Event.cancel taskId now]).take evs.length = evs :=
          List.take_left evs _
        simp only [hgete, htakee, ht] at hg
        constructor
        · intro hc
          simp only [hc] at hg
          simp at hg
        · intro hc
          simp only [hc] at hg
          simp at hg
      exact cancelTask_Inv (addIds evs) (runQ evs) taskId now hInv hguard
    | update taskId p =>
      exfalso
      have := h2 (Event.update taskId p) (List.mem_append_right _ (by simp))
      simp [Event.isUpdate] at this

/-- C4 amended: provided job ids are distinct (no `Date.now()` collisions),
progress is only mutated by the scheduler's own transitions (no direct
`updateTask` writes), and no cancellation targets a job already terminal
(`cancelTask` would overwrite the terminal state), every stored job record
satisfies: Completed has `result` set and `error` unset, Failed has `error`
set and `result` unset, Cancelled has neither set, and `progress` = 100 iff
the state is Completed. -/
theorem terminalFieldsAmended (evs : List Event)
    (h1 : (addIds evs).Nodup) (h2 : NoUpdates evs) (h3 : NoTerminalCancel evs) :
    ∀ id t, alookup (runQ evs).tasks id = some t →
      (t.status = .completed → (∃ r, t.result = some r) ∧ t.error = none) ∧
      (t.status = .failed → (∃ m, t.error = some m) ∧ t.result = none) ∧
      (t.status = .cancelled → t.error = none ∧ t.result = none) ∧
      (t.progress = 100 ↔ t.status = .completed) := by
  obtain ⟨_, _, _, hD, _⟩ := Inv_runQ evs h1 h2 h3
  intro id t ht
  obtain ⟨hc1, hc2, hc3, hc4, hc5⟩ := hD id t ht
  refine ⟨fun h => ⟨(hc1 h).1, (hc1 h).2.1⟩,
    fun h => ⟨(hc2 h).1, (hc2 h).2.1⟩,
    fun h => ⟨(hc3 h).2.1, (hc3 h).1⟩, ?_, ?_⟩
  · intro hp
    cases hstatus : t.status with
    | pending =>
      have := (hc4 hstatus).2.2
      rw [this] at hp
      simp at hp
    | running =>
      have := (hc5 hstatus).2.2
      rw [this] at hp
      simp at hp
    | completed => rfl
    | failed =>
      have := (hc2 hstatus).2.2
      rw [this] at hp
      simp at hp
    | cancelled =>
      have := (hc3 hstatus).2.2
      rw [this] at hp
      simp at hp
  · intro h
    exact (hc1 h).2.2

/-- Witness for `terminalFieldsAmended`: two distinct jobs, one fulfilling
and one rejecting, both settled. -/
theorem terminalFieldsAmended_witness :
    (addIds [Event.add "a" "A" .subtitle (exOk 7) 0,
             Event.add "b" "B" .subtitle { tag := 8, outcome := .err "boom" } 0,
             Event.settle 0 1, Event.settle 0 2]).Nodup ∧
    (∀ id t, alookup (runQ [Event.add "a" "A" .subtitle (exOk 7) 0,
             Event.add "b" "B" .subtitle { tag := 8, outcome := .err "boom" } 0,
             Event.settle 0 1, Event.settle 0 2]).tasks id = some t →
      (t.status = .completed → (∃ r, t.result = some r) ∧ t.error = none) ∧
      (t.status = .failed → (∃ m, t.error = some m) ∧ t.result = none) ∧
      (t.status = .cancelled → t.error = none ∧ t.result = none) ∧
      (t.progress = 100 ↔ t.status = .completed)) :=
  ⟨by decide,
   terminalFieldsAmended
     [Event.add "a" "A" .subtitle (exOk 7) 0,
      Event.add "b" "B" .subtitle { tag := 8, outcome := .err "boom" } 0,
      Event.settle 0 1, Event.settle 0 2]
     (by decide) (by decide) (by decide)⟩

end TaskQueue

namespace Deepgram

/-- C2: for every payload over the 4 MB ceiling, the router invokes the
compression collaborator exactly once; if the compressed size is within the
ceiling it performs exactly one direct transfer and zero storage calls; if
the compressed size is still over the ceiling it uploads to storage and
submits by URL reference, with no direct transfer attempt. -/
theorem routerFallback (fileSize compressedSize : ℕ)
    (hbig : sizeMB fileSize > sizeLimitMB) :
    (deepgramRoute fileSize compressedSize).count .compress = 1 ∧
    (sizeMB compressedSize ≤ sizeLimitMB →
      deepgramRoute fileSize compressedSize = [.compress, .directUpload] ∧
      (deepgramRoute fileSize compressedSize).count .directUpload = 1 ∧
      (deepgramRoute fileSize compressedSize).count .storageUpload = 0 ∧
      (deepgramRoute fileSize compressedSize).count .urlSubmit = 0) ∧
    (sizeMB compressedSize > sizeLimitMB →
      deepgramRoute fileSize compressedSize
          = [.compress, .storageUpload, .urlSubmit] ∧
      (deepgramRoute fileSize compressedSize).count .directUpload = 0) := by
  unfold deepgramRoute
  rw [if_pos hbig]
  by_cases hc : sizeMB compressedSize > sizeLimitMB
  · rw [if_pos hc]
    exact ⟨by decide, fun hle => absurd hc (not_lt.mpr hle),
      fun _ => ⟨rfl, by decide⟩⟩
  · rw [if_neg hc]
    exact ⟨by decide, fun _ => ⟨rfl, by decide, by decide, by decide⟩,
      fun hgt => absurd hgt hc⟩

/-- Witness for `routerFallback` at the boundary sizes `C + 1` and `C - 1`
bytes (`C` = 4 MiB = 4194304 bytes). -/
theorem routerFallback_witness :
    sizeMB 4194305 > sizeLimitMB ∧
    sizeMB 4194303 ≤ sizeLimitMB ∧
    (deepgramRoute 4194305 4194303).count .compress = 1 ∧
    deepgramRoute 4194305 4194303 = [.compress, .directUpload] := by
  have h1 : sizeMB 4194305 > sizeLimitMB := by
    norm_num [sizeMB, sizeLimitMB]
  have h2 : sizeMB 4194303 ≤ sizeLimitMB := by
    norm_num [sizeMB, sizeLimitMB]
  obtain ⟨hcount, hsmall, _⟩ := routerFallback 4194305 4194303 h1
  obtain ⟨hroute, _, _, _⟩ := hsmall h2
  exact ⟨h1, h2, hcount, hroute⟩

/-- C8: the target bitrate is a monotone (non-increasing) function of the
original payload size — a larger input is compressed at least as aggressively
(a lower or equal target bitrate).  This holds both for the bitrate the
router actually passes (`chosenTargetBitrate`: constant at 32000, so the
monotonicity is degenerate) and for the step function in the repository's
design document (`calculateBitrate`). -/
theorem bitrateMonotone (s1 s2 : ℚ) (h : s1 ≤ s2) :
    chosenTargetBitrate s2 ≤ chosenTargetBitrate s1 ∧
    calculateBitrate s2 ≤ calculateBitrate s1 := by
  refine ⟨le_refl _, ?_⟩
  unfold calculateBitrate
  split_ifs <;> first | omega | linarith

/-- Witness for `bitrateMonotone` at sizes 150 MB ≤ 400 MB. -/
theorem bitrateMonotone_witness :
    (150 : ℚ) ≤ 400 ∧
    chosenTargetBitrate 400 ≤ chosenTargetBitrate 150 ∧
    calculateBitrate 400 ≤ calculateBitrate 150 := by
  have h : (150 : ℚ) ≤ 400 := by norm_num
  obtain ⟨h1, h2⟩ := bitrateMonotone 150 400 h
  exact ⟨h, h1, h2⟩

end Deepgram

namespace SyncQueue

theorem drainGo_success (env : SyncEnv) :
    ∀ (q : List String) (s : SState), (∀ v ∈ q, env.pushOk v = true) →
      s.syncQueue = q →
      drainGo env q s = { s with syncQueue := [], pushes := s.pushes ++ q } := by
  intro q
  induction q with
  | nil =>
    intro s _ hq
    obtain ⟨q0, b, st, le, lt, r, pu⟩ := s
    simp only [drainGo]
    simp_all
  | cons v rest ih =>
    intro s h hq
    simp only [drainGo]
    rw [if_pos (h v (List.mem_cons_self v rest))]
    rw [ih _ (fun w hw => h w (List.mem_cons_of_mem v hw)) rfl]
    obtain ⟨q0, b, st, le, lt, r, pu⟩ := s
    simp

theorem processSyncQueue_offline (env : SyncEnv) (now : Nat) (s : SState)
    (h : env.online = false) :
    (processSyncQueue env now s).syncQueue = s.syncQueue ∧
    (processSyncQueue env now s).pushes = s.pushes ∧
    (processSyncQueue env now s).isSyncing = s.isSyncing ∧
    (processSyncQueue env now s).lastSyncTime = s.lastSyncTime := by
  unfold processSyncQueue
  split
  · exact ⟨rfl, rfl, rfl, rfl⟩
  · exact ⟨rfl, rfl, rfl, rfl⟩

theorem processSyncQueue_success (env : SyncEnv) (now : Nat) (s : SState)
    (u : String)
    (hsync : s.isSyncing = false) (hne : s.syncQueue ≠ [])
    (hon : env.online = true) (hav : env.available = true)
    (huser : env.currentUser = some u)
    (hpush : ∀ v ∈ s.syncQueue, env.pushOk v = true) :
    processSyncQueue env now s =
      { s with syncQueue := [], isSyncing := false, syncStatus := .idle,
               lastError := none, lastSyncTime := some now,
               pushes := s.pushes ++ s.syncQueue } := by
  unfold processSyncQueue
  rw [if_neg (by simp [hsync, hne])]
  rw [if_neg (by simp [hon])]
  rw [if_neg (by simp [hav])]
  rw [huser]
  dsimp only
  have h1 : updateStatus { s with isSyncing := true } .syncing none
      = { s with isSyncing := true, syncStatus := .syncing, lastError := none } := by
    simp [updateStatus]
  rw [h1]
  dsimp only
  rw [drainGo_success env s.syncQueue
    { s with isSyncing := true, syncStatus := .syncing, lastError := none } hpush rfl]
  obtain ⟨q0, b, st, le, lt, r, pu⟩ := s
  simp [updateStatus]

theorem queueVideoForSync_mem (env : SyncEnv) (now : Nat) (s : SState)
    (x : String) (h : x ∈ s.syncQueue) :
    queueVideoForSync env now s x = s := by
  unfold queueVideoForSync
  rw [if_pos h]

theorem queueVideoForSync_offline (env : SyncEnv) (now : Nat) (s : SState)
    (x : String) (h : env.online = false) (hx : x ∉ s.syncQueue) :
    (queueVideoForSync env now s x).syncQueue = s.syncQueue ++ [x] ∧
    (queueVideoForSync env now s x).pushes = s.pushes ∧
    (queueVideoForSync env now s x).isSyncing = s.isSyncing ∧
    (queueVideoForSync env now s x).lastSyncTime = s.lastSyncTime := by
  unfold queueVideoForSync
  rw [if_neg hx]
  exact processSyncQueue_offline env now { s with syncQueue := s.syncQueue ++ [x] } h

/-- C9: enqueuing the same video id twice before a drain (here: while the
connectivity oracle reports offline, so the enqueue-triggered drain attempts
do not consume the queue) queues it exactly once, and the second enqueue is a
literal no-op; a subsequent drain in which every push succeeds performs
exactly one push for that id, empties the queue, sets the status to idle and
records `lastSyncTime`. -/
theorem enqueueIdempotentDrainClears (s : SState) (x u : String)
    (envOff envOn : SyncEnv) (n1 n2 n3 : Nat)
    (hx : x ∉ s.syncQueue)
    (hoff : envOff.online = false)
    (hsync : s.isSyncing = false)
    (hon : envOn.online = true) (hav : envOn.available = true)
    (huser : envOn.currentUser = some u)
    (hpush : ∀ v, envOn.pushOk v = true) :
    queueVideoForSync envOff n2 (queueVideoForSync envOff n1 s x) x
        = queueVideoForSync envOff n1 s x ∧
    (queueVideoForSync envOff n1 s x).syncQueue = s.syncQueue ++ [x] ∧
    (queueVideoForSync envOff n1 s x).syncQueue.count x = 1 ∧
    (processSyncQueue envOn n3 (queueVideoForSync envOff n1 s x)).syncQueue = [] ∧
    (processSyncQueue envOn n3 (queueVideoForSync envOff n1 s x)).syncStatus = .idle ∧
    (processSyncQueue envOn n3 (queueVideoForSync envOff n1 s x)).lastSyncTime = some n3 ∧
    (processSyncQueue envOn n3 (queueVideoForSync envOff n1 s x)).isSyncing = false ∧
    (processSyncQueue envOn n3 (queueVideoForSync envOff n1 s x)).pushes
        = s.pushes ++ (s.syncQueue ++ [x]) ∧
    (processSyncQueue envOn n3 (queueVideoForSync envOff n1 s x)).pushes.count x
        = s.pushes.count x + 1 := by
  obtain ⟨hq1, hp1, hs1, _⟩ := queueVideoForSync_offline envOff n1 s x hoff hx
  have hmem : x ∈ (queueVideoForSync envOff n1 s x).syncQueue := by
    rw [hq1]; simp
  have hnoop : queueVideoForSync envOff n2 (queueVideoForSync envOff n1 s x) x
      = queueVideoForSync envOff n1 s x :=
    queueVideoForSync_mem envOff n2 _ x hmem
  have hcnt : (queueVideoForSync envOff n1 s x).syncQueue.count x = 1 := by
    rw [hq1]
    rw [List.count_append]
    rw [List.count_eq_zero_of_not_mem hx]
    simp
  have hne : (queueVideoForSync envOff n1 s x).syncQueue ≠ [] := by
    rw [hq1]; simp
  have hdrain := processSyncQueue_success envOn n3 (queueVideoForSync envOff n1 s x) u
    (by rw [hs1, hsync]) hne hon hav huser (fun v _ => hpush v)
  rw [hdrain]
  refine ⟨hnoop, hq1, hcnt, rfl, rfl, rfl, rfl, ?_, ?_⟩
  · show (queueVideoForSync envOff n1 s x).pushes
        ++ (queueVideoForSync envOff n1 s x).syncQueue = s.pushes ++ (s.syncQueue ++ [x])
    rw [hp1, hq1]
  · show ((queueVideoForSync envOff n1 s x).pushes
        ++ (queueVideoForSync envOff n1 s x).syncQueue).count x = s.pushes.count x + 1
    rw [List.count_append, hp1, hcnt]

/-- Witness for `enqueueIdempotentDrainClears`: the empty initial sync state,
video id "v1", an offline environment for the two enqueues and an online,
authenticated, always-succeeding environment for the drain. -/
theorem enqueueIdempotentDrainClears_witness :
    "v1" ∉ initialSync.syncQueue ∧
    (let envOff : SyncEnv :=
        { online := false, available := true, currentUser := some "u",
          pushOk := fun _ => true }
     let envOn : SyncEnv :=
        { online := true, available := true, currentUser := some "u",
          pushOk := fun _ => true }
     (processSyncQueue envOn 3 (queueVideoForSync envOff 1 initialSync "v1")).syncQueue = [] ∧
     (processSyncQueue envOn 3 (queueVideoForSync envOff 1 initialSync "v1")).syncStatus = .idle ∧
     (processSyncQueue envOn 3 (queueVideoForSync envOff 1 initialSync "v1")).lastSyncTime = some 3 ∧
     (processSyncQueue envOn 3 (queueVideoForSync envOff 1 initialSync "v1")).pushes.count "v1"
        = initialSync.pushes.count "v1" + 1) := by
  refine ⟨by decide, ?_, ?_, ?_, ?_⟩
  · exact (enqueueIdempotentDrainClears initialSync "v1" "u"
      { online := false, available := true, currentUser := some "u", pushOk := fun _ => true }
      { online := true, available := true, currentUser := some "u", pushOk := fun _ => true }
      1 2 3 (by decide) rfl rfl rfl rfl rfl (fun _ => rfl)).2.2.2.1
  · exact (enqueueIdempotentDrainClears initialSync "v1" "u"
      { online := false, available := true, currentUser := some "u", pushOk := fun _ => true }
      { online := true, available := true, currentUser := some "u", pushOk := fun _ => true }
      1 2 3 (by decide) rfl rfl rfl rfl rfl (fun _ => rfl)).2.2.2.2.1
  · exact (enqueueIdempotentDrainClears initialSync "v1" "u"
      { online := false, available := true, currentUser := some "u", pushOk := fun _ => true }
      { online := true, available := true, currentUser := some "u", pushOk := fun _ => true }
      1 2 3 (by decide) rfl rfl rfl rfl rfl (fun _ => rfl)).2.2.2.2.2.1
  · exact (enqueueIdempotentDrainClears initialSync "v1" "u"
      { online := false, available := true, currentUser := some "u", pushOk := fun _ => true }
      { online := true, available := true, currentUser := some "u", pushOk := fun _ => true }
      1 2 3 (by decide) rfl rfl rfl rfl rfl (fun _ => rfl)).2.2.2.2.2.2.2.2

end SyncQueue
